import Mathlib

/-!
Verification of the scandomain repository (subsonic.py, scansubv2.py,
script/subsonic.py) against its natural-language specification.

Strings are modelled as `List Char`.  Python's ASCII case mapping is
modelled exactly on the ASCII range (`str.lower` is the identity on every
non-ASCII character of the inputs relevant here).  Network and parser
effects (requests, dns.resolver, json.loads, re.findall on fetched text)
are modelled as explicit oracle values fed to the embedded functions: an
`Option` value distinguishes a raised exception (`none`) from a returned
value (`some`), exactly where the Python code wraps the call in
`try/except`.
-/

namespace ScanDomain

/-- ASCII uppercase letter test, `A`..`Z` (codes 65..90). -/
def isUpperAscii (c : Char) : Bool := 65 ≤ c.toNat && c.toNat ≤ 90

/-- One character of Python `str.lower()`: `A`..`Z` map to `a`..`z`,
every other character is left unchanged (ASCII model). -/
def pyLowerChar (c : Char) : Char :=
  if isUpperAscii c then Char.ofNat (c.toNat + 32) else c

/-- Python `str.lower()` on the ASCII model. -/
def pyLower (s : List Char) : List Char := s.map pyLowerChar

/-- Python `str.strip()` whitespace: space, tab, newline, carriage
return, vertical tab (11), form feed (12). -/
def pyWs (c : Char) : Bool :=
  c.toNat = 32 || c.toNat = 9 || c.toNat = 10 || c.toNat = 13 ||
    c.toNat = 11 || c.toNat = 12

/-- Drop the longest run of characters satisfying `p` from the end. -/
def rstripWhile (p : Char → Bool) (s : List Char) : List Char :=
  (s.reverse.dropWhile p).reverse

/-- Python `str.strip()`: remove leading and trailing whitespace. -/
def pyStrip (s : List Char) : List Char :=
  rstripWhile pyWs (s.dropWhile pyWs)

/-- `re.sub(r"^\*\.", "", s)` of subsonic.py line 60: remove one leading
`*.` wildcard marker (the anchored pattern can match only at position 0). -/
def stripStarDot (s : List Char) : List Char :=
  match s with
  | '*' :: '.' :: rest => rest
  | _ => s

/-- `re.sub(r"^\.+|\.+$", "", s)` of subsonic.py line 61: remove the
leading run of dots and the trailing run of dots. -/
def stripDots (s : List Char) : List Char :=
  rstripWhile (fun c => c = '.') (s.dropWhile (fun c => c = '.'))

/-- Character class `[a-z0-9]` of the subsonic.py label regex. -/
def labelChar (c : Char) : Bool :=
  (97 ≤ c.toNat && c.toNat ≤ 122) || (48 ≤ c.toNat && c.toNat ≤ 57)

/-- Character class `[a-z0-9\-]` (interior label characters). -/
def labelMidChar (c : Char) : Bool := labelChar c || c = '-'

/-- One DNS label of the subsonic.py regex
`[a-z0-9]([a-z0-9\-]{0,61}[a-z0-9])?`: a single `[a-z0-9]` character, or
such a character followed by up to 62 more where the interior ones are
`[a-z0-9-]` and the final one is `[a-z0-9]`. -/
def matchLabel : List Char → Bool
  | [] => false
  | [c] => labelChar c
  | c :: rest =>
      labelChar c && rest.length ≤ 62 && rest.all labelMidChar &&
        labelChar (rest.getLastD '-')

/-- Split a character list at every occurrence of `sep` (like Python
`str.split(sep)`); adjacent separators yield empty parts. -/
def splitOnChar (sep : Char) : List Char → List (List Char)
  | [] => [[]]
  | c :: cs =>
      if c = sep then [] :: splitOnChar sep cs
      else
        match splitOnChar sep cs with
        | [] => [[c]]
        | l :: ls => (c :: l) :: ls

/-- Full-string match of the subsonic.py line 55 regex
`^[a-z0-9]([a-z0-9\-]{0,61}[a-z0-9])?(\.[a-z0-9]([a-z0-9\-]{0,61}[a-z0-9])?)*$`:
since `.` is not a label character, a string matches exactly when every
dot-separated part matches one label. -/
def validPattern (s : List Char) : Bool :=
  (splitOnChar '.' s).all matchLabel

/-- `valid_subdomain` of subsonic.py lines 54-56:
`sub.endswith("." + domain) and re.match(pattern, sub.lower())`. -/
def valid_subdomain (sub domain : List Char) : Bool :=
  ('.' :: domain).isSuffixOf sub && validPattern (pyLower sub)

/-- `clean_subdomain` of subsonic.py lines 58-62: lower-case and strip the
candidate, remove a leading `*.` and leading/trailing dot runs, then keep
it only if `valid_subdomain` accepts it. -/
def clean_subdomain (sub domain : List Char) : Option (List Char) :=
  let s := stripDots (stripStarDot (pyStrip (pyLower sub)))
  if valid_subdomain s domain then some s else none

/-- Character class `[a-zA-Z0-9.-]` of the scansubv2.py line 32 regex. -/
def v2Char (c : Char) : Bool :=
  (97 ≤ c.toNat && c.toNat ≤ 122) || (65 ≤ c.toNat && c.toNat ≤ 90) ||
    (48 ≤ c.toNat && c.toNat ≤ 57) || c.toNat = 46 || c.toNat = 45

/-- `valid_subdomain` of scansubv2.py lines 31-32 (identical in
script/subsonic.py lines 45-50): `sub.endswith("." + domain) and
len(sub) > len(domain) and re.match(r"^[a-zA-Z0-9.-]+$", sub)`. -/
def valid_subdomain_v2 (sub domain : List Char) : Bool :=
  ('.' :: domain).isSuffixOf sub && decide (domain.length < sub.length) &&
    !sub.isEmpty && sub.all v2Char

/-- The acceptance step of scansubv2.py `get_subdomains` lines 39-41: a
candidate passing `valid_subdomain` is inserted lower-cased
(`subs.add(sub.lower())`), otherwise it is dropped. -/
def normalize_v2 (sub domain : List Char) : Option (List Char) :=
  if valid_subdomain_v2 sub domain then some (pyLower sub) else none

/-! ### Probing (subsonic.py lines 114-123, scansubv2.py lines 45-53) -/

/-- The outside world as seen by one `probe_subdomain` call: the result
of `dns_resolve`, and the outcome of the HTTPS and HTTP HEAD requests
(`none` = the request raised, `some code` = a response with that status). -/
structure ProbeWorld where
  dnsOk : Bool
  httpsResp : Option Nat
  httpResp : Option Nat
deriving DecidableEq, Repr

/-- One loop iteration of subsonic.py lines 116-121: a HEAD attempt
succeeds when it returns a response with `status_code < 400`; an exception
(`none`) and a status `≥ 400` both make the loop continue. -/
def headOk : Option Nat → Bool
  | some code => decide (code < 400)
  | none => false

/-- `probe_subdomain` of subsonic.py lines 114-123, together with the list
of URL schemes for which a HEAD request was issued.  Returns
`"https://" ++ sub` or `"http://" ++ sub` on the first scheme whose HEAD
returns a status below 400, `"dns-only://" ++ sub` when DNS resolves but
both attempts fail, and `none` (Python `None`) when DNS does not resolve
(in which case no request is issued). -/
def probe_subdomain (w : ProbeWorld) (sub : List Char) :
    Option (List Char) × List (List Char) :=
  if w.dnsOk then
    if headOk w.httpsResp then
      (some ("https://".data ++ sub), ["https://".data])
    else if headOk w.httpResp then
      (some ("http://".data ++ sub), ["https://".data, "http://".data])
    else
      (some ("dns-only://".data ++ sub), ["https://".data, "http://".data])
  else (none, [])

/-- The world of one scansubv2.py `probe_url` call: outcomes of the HTTPS
and HTTP GET requests. -/
structure UrlWorld where
  httpsResp : Option Nat
  httpResp : Option Nat
deriving DecidableEq, Repr

/-- One loop iteration of scansubv2.py lines 46-52: a GET succeeds when
`200 <= status_code < 400`; exceptions and other statuses continue. -/
def getOk : Option Nat → Bool
  | some code => decide (200 ≤ code && code < 400)
  | none => false

/-- `probe_url` of scansubv2.py lines 45-53. -/
def probe_url (w : UrlWorld) (sub : List Char) : Option (List Char) :=
  if getOk w.httpsResp then some ("https://".data ++ sub)
  else if getOk w.httpResp then some ("http://".data ++ sub)
  else none

/-- The spec's three-state classification of a probe outcome.  The code
encodes the state in the returned string: `None` = `Unresolvable`,
a `dns-only://` URL = `DnsOnly`, anything else = `Live`. -/
inductive ProbeClass
  | unresolvable
  | dnsOnly
  | live
deriving DecidableEq, Repr

/-- Decode `probe_subdomain`'s return value into the spec's
classification. -/
def classifyProbe : Option (List Char) → ProbeClass
  | none => .unresolvable
  | some s => if s.take 11 = "dns-only://".data then .dnsOnly else .live

/-! ### DNS resolution (subsonic.py lines 65-83) -/

/-- Outcome of one `resolver.resolve(sub, rtype, raise_on_no_answer=False)`
call: the resolver raised, answered with an empty rrset (`answers.rrset`
is `None`/falsy), or answered with at least one record. -/
inductive DnsAnswer
  | err
  | empty
  | records
deriving DecidableEq, Repr

/-- The world of one `dns_resolve` call: the outcome of the query for
each of the four record types A, CNAME, AAAA, MX. -/
structure DnsWorld where
  a : DnsAnswer
  cname : DnsAnswer
  aaaa : DnsAnswer
  mx : DnsAnswer
deriving DecidableEq, Repr

/-- The query outcomes in the order the loop of subsonic.py line 74
iterates the record types `['A','CNAME','AAAA','MX']`. -/
def DnsWorld.queries (w : DnsWorld) : List DnsAnswer :=
  [w.a, w.cname, w.aaaa, w.mx]

/-- The record-type names in loop order. -/
def rtypeNames : List (List Char) :=
  ["A".data, "CNAME".data, "AAAA".data, "MX".data]

/-- The loop of subsonic.py lines 74-80, also counting the queries
issued: on a nonempty rrset return `True` at once; an exception
(`except: continue`) and an empty rrset both move to the next record
type; after the loop return `False`. -/
def dnsLoop : List DnsAnswer → Bool × Nat
  | [] => (false, 0)
  | ans :: rest =>
      match ans with
      | .records => (true, 1)
      | _ => let r := dnsLoop rest; (r.1, r.2 + 1)

/-- `dns_resolve` of subsonic.py lines 72-83: the loop result together
with the number of record-type queries issued. -/
def dns_resolve (w : DnsWorld) : Bool × Nat := dnsLoop w.queries

/-- Replace a raised query by an empty answer (the behaviour the claim
says is indistinguishable). -/
def errAsEmpty : DnsAnswer → DnsAnswer
  | .err => .empty
  | x => x

/-- `errAsEmpty` applied to every query outcome of a world. -/
def DnsWorld.scrubErr (w : DnsWorld) : DnsWorld :=
  ⟨errAsEmpty w.a, errAsEmpty w.cname, errAsEmpty w.aaaa, errAsEmpty w.mx⟩

/-! ### Source adapters and aggregation (subsonic.py lines 47-51,
86-111, 147-150) -/

/-- `fetch_url` of subsonic.py lines 47-51: return the response text, or
`""` when the GET raised. -/
def fetch_url : Option (List Char) → List Char
  | some text => text
  | none => []

/-- One crt.sh JSON entry as used by subsonic.py lines 92-97: the
`name_value` and `common_name` fields (absent fields read as `''` via
`item.get(field, '')`). -/
structure CrtItem where
  name_value : List Char
  common_name : List Char
deriving DecidableEq, Repr

/-- Fold the `for v in values: c = clean_subdomain(v, domain); if c:
subs.add(c)` body of subsonic.py lines 95-97. -/
def addCleaned (domain : List Char) (subs : Finset (List Char))
    (vs : List (List Char)) : Finset (List Char) :=
  vs.foldl (fun s v =>
    match clean_subdomain v domain with
    | some c => insert c s
    | none => s) subs

/-- `get_subdomains_from_crtsh` of subsonic.py lines 86-99.
`parseJson` is the `json.loads` oracle (`none` = it raised); `net` is the
network outcome handed to `fetch_url`.  On a parse failure the whole
`try` body is abandoned and the empty accumulator is returned. -/
def get_subdomains_from_crtsh (parseJson : List Char → Option (List CrtItem))
    (net : Option (List Char)) (domain : List Char) : Finset (List Char) :=
  let text := fetch_url net
  match parseJson text with
  | none => ∅
  | some data =>
      data.foldl (fun subs item =>
        addCleaned domain
          (addCleaned domain subs (splitOnChar '\n' item.name_value))
          (splitOnChar '\n' item.common_name)) ∅

/-- `get_subdomains_from_rapiddns` of subsonic.py lines 101-109.
`find` is the `pattern.findall` oracle over the fetched text; nothing is
collected when the fetched text is empty (`if text:`). -/
def get_subdomains_from_rapiddns (find : List Char → List (List Char))
    (net : Option (List Char)) (domain : List Char) : Finset (List Char) :=
  let text := fetch_url net
  if text.isEmpty then ∅
  else
    (find text).foldl (fun s m =>
      match clean_subdomain m domain with
      | some c => insert c s
      | none => s) ∅

/-- The merge step of `scan_domain`, subsonic.py lines 147-150:
`all_subs.update(f.result())` over the per-adapter result sets in
completion order. -/
def collect (results : List (Finset (List Char))) : Finset (List Char) :=
  results.foldl (fun acc r => acc ∪ r) ∅

/-! ### Wayback enrichment (subsonic.py lines 126-137, 159-169) -/

/-- The closest-snapshot object of the Wayback availability response:
its `timestamp` and `url` fields, each possibly absent. -/
structure Snapshot where
  timestamp : Option (List Char)
  url : Option (List Char)
deriving DecidableEq, Repr

/-- Python `int()` on the digit strings relevant here: a nonempty string
of ASCII digits parses to its value, anything else raises (`none`). -/
def parseNat (l : List Char) : Option Nat :=
  if !l.isEmpty && l.all (fun c => 48 ≤ c.toNat && c.toNat ≤ 57) then
    some (l.foldl (fun a c => a * 10 + (c.toNat - 48)) 0)
  else none

/-- `check_wayback` of subsonic.py lines 126-137.  `w` is the fetch/parse
oracle: `none` = the GET or `.json()` raised, `some none` = no (or an
empty/falsy) `closest` snapshot object, `some (some snap)` = a snapshot.
Returns the snapshot URL only when the snapshot has a truthy timestamp
whose first four characters parse to a year `≥ currentYear - years`
(`years` is 2 at the only call site); every failure path returns `none`. -/
def check_wayback (w : Option (Option Snapshot)) (currentYear years : Nat) :
    Option (List Char) :=
  match w with
  | none => none
  | some none => none
  | some (some snap) =>
      match snap.timestamp with
      | none => none
      | some ts =>
          if ts.isEmpty then none
          else
            match parseNat (ts.take 4) with
            | none => none
            | some y => if (y : Int) ≥ (currentYear : Int) - (years : Int)
                then snap.url else none

/-- The gate in `scan_domain` lines 163-167 deciding whether
`check_wayback` is invoked for a probe result: `if res:` — every non-None
(and nonempty) returned URL string, whatever its classification. -/
def wayback_checked : Option (List Char) → Bool
  | none => false
  | some s => !s.isEmpty

/-! ### Input-domain normalization (subsonic.py line 189,
scansubv2.py lines 108-109, script/subsonic.py lines 136-144) -/

/-- The single anchored substitution of subsonic.py line 189,
`re.sub(r"^https?://(www\.)?|^www\.", "", d)`: remove one leading
`http://`/`https://` (optionally followed by `www.`) or one leading
`www.`; the anchored pattern can replace only at position 0. -/
def stripSchemeWww (s : List Char) : List Char :=
  if s.take 11 = "http://www.".data then s.drop 11
  else if s.take 12 = "https://www.".data then s.drop 12
  else if s.take 7 = "http://".data then s.drop 7
  else if s.take 8 = "https://".data then s.drop 8
  else if s.take 4 = "www.".data then s.drop 4
  else s

/-- The per-line normalization of subsonic.py line 189:
`re.sub(r"^https?://(www\.)?|^www\.", "", d.strip())` — note: no
lower-casing and no trailing-slash stripping. -/
def normalize_subsonic (d : List Char) : List Char :=
  stripSchemeWww (pyStrip d)

/-- The domain-list comprehension of subsonic.py line 189: blank
(all-whitespace) lines are dropped, the rest are normalized. -/
def readDomains_subsonic (lines : List (List Char)) : List (List Char) :=
  (lines.filter (fun d => !(pyStrip d).isEmpty)).map normalize_subsonic

/-- Python `str.replace(pat, "")` for a nonempty pattern `p :: ps`:
delete every non-overlapping occurrence, scanning left to right and
resuming after each deleted occurrence.  The first argument counts
characters still to skip from a matched occurrence. -/
def removeOccAux (p : Char) (ps : List Char) : Nat → List Char → List Char
  | _, [] => []
  | skip + 1, _ :: cs => removeOccAux p ps skip cs
  | 0, c :: cs =>
      if c = p && cs.take ps.length = ps then removeOccAux p ps ps.length cs
      else c :: removeOccAux p ps 0 cs

/-- Python `str.replace(pat, "")`; the patterns used by the repository
are all nonempty, so the `[]` case is never exercised. -/
def pyReplaceDel (pat s : List Char) : List Char :=
  match pat with
  | [] => s
  | p :: ps => removeOccAux p ps 0 s

/-- The per-line normalization of scansubv2.py line 109:
`d.strip().lower().replace("http://","").replace("https://","").replace("www.","")`
— each `replace` deletes every occurrence, not only a leading one, and
trailing slashes are kept. -/
def normalize_scansub (d : List Char) : List Char :=
  pyReplaceDel "www.".data
    (pyReplaceDel "https://".data
      (pyReplaceDel "http://".data (pyLower (pyStrip d))))

/-- The per-line normalization of script/subsonic.py lines 137-143: as in
scansubv2.py, followed by `rstrip("/")`. -/
def normalize_script (d : List Char) : List Char :=
  rstripWhile (fun c => c = '/') (normalize_scansub d)

/-- No ASCII uppercase letter occurs in the string. -/
def noUpper (s : List Char) : Bool := s.all (fun c => !isUpperAscii c)

/-- Join parts with a separator character (inverse of `splitOnChar`). -/
def joinWith (sep : Char) : List (List Char) → List Char
  | [] => []
  | [p] => p
  | p :: ps => p ++ sep :: joinWith sep ps

/-! ## Helper lemmas -/

theorem toNat_ofNat_valid {n : Nat} (h : n < 55296) : (Char.ofNat n).toNat = n := by
  have hv : n.isValidChar := Or.inl h
  simp [Char.ofNat, hv, Char.ofNatAux, Char.toNat, UInt32.toNat, BitVec.toNat_ofNatLt]

theorem isUpperAscii_pyLowerChar (c : Char) : isUpperAscii (pyLowerChar c) = false := by
  unfold pyLowerChar
  split
  · next h =>
      simp only [isUpperAscii, Bool.and_eq_true, decide_eq_true_eq] at h
      simp only [isUpperAscii, Bool.and_eq_true, decide_eq_true_eq,
        Bool.and_eq_false_iff, decide_eq_false_iff_not]
      rw [toNat_ofNat_valid (by omega)]
      omega
  · next h => exact Bool.not_eq_true _ ▸ h

theorem noUpper_pyLower (s : List Char) : noUpper (pyLower s) = true := by
  simp only [noUpper, pyLower, List.all_map, List.all_eq_true]
  intro c _
  simp [isUpperAscii_pyLowerChar]

theorem pyLower_eq_self {s : List Char} (h : noUpper s = true) : pyLower s = s := by
  induction s with
  | nil => rfl
  | cons a as ih =>
      simp only [noUpper, List.all_cons, Bool.and_eq_true, Bool.not_eq_true'] at h
      simp only [pyLower, List.map_cons]
      have h1 : pyLowerChar a = a := by simp [pyLowerChar, h.1]
      have h2 : pyLower as = as := ih (by simpa [noUpper] using h.2)
      simp only [pyLower] at h2
      rw [h1, h2]

theorem noUpper_sublist {s t : List Char} (hsub : s.Sublist t)
    (h : noUpper t = true) : noUpper s = true := by
  simp only [noUpper, List.all_eq_true] at h ⊢
  exact fun c hc => h c (hsub.subset hc)

theorem rstripWhile_sublist (p : Char → Bool) (s : List Char) :
    (rstripWhile p s).Sublist s := by
  have h1 : (s.reverse.dropWhile p).Sublist s.reverse := List.dropWhile_sublist p
  have h2 := h1.reverse
  rwa [List.reverse_reverse] at h2

theorem stripStarDot_sublist (s : List Char) : (stripStarDot s).Sublist s := by
  unfold stripStarDot
  split
  · exact (List.sublist_cons_self _ _).trans (List.sublist_cons_self _ _)
  · exact List.Sublist.refl _

theorem pyStrip_sublist (s : List Char) : (pyStrip s).Sublist s :=
  (rstripWhile_sublist _ _).trans (List.dropWhile_sublist _)

theorem stripDots_sublist (s : List Char) : (stripDots s).Sublist s :=
  (rstripWhile_sublist _ _).trans (List.dropWhile_sublist _)

theorem cleanChain_sublist (r : List Char) :
    (stripDots (stripStarDot (pyStrip (pyLower r)))).Sublist (pyLower r) :=
  ((stripDots_sublist _).trans (stripStarDot_sublist _)).trans (pyStrip_sublist _)

theorem noUpper_cleanChain (r : List Char) :
    noUpper (stripDots (stripStarDot (pyStrip (pyLower r)))) = true :=
  noUpper_sublist (cleanChain_sublist r) (noUpper_pyLower r)

theorem append_length_ne {a b s : List Char} (h : a.length ≠ b.length) :
    a ++ s ≠ b ++ s := by
  intro he
  have hl := congrArg List.length he
  simp only [List.length_append] at hl
  omega

theorem headOk_iff {r : Option Nat} :
    headOk r = true ↔ ∃ c, r = some c ∧ c < 400 := by
  cases r <;> simp [headOk]

theorem getOk_iff {r : Option Nat} :
    getOk r = true ↔ ∃ c, r = some c ∧ 200 ≤ c ∧ c < 400 := by
  cases r <;> simp [getOk, and_assoc]

theorem mem_foldl_union (x : List Char) (rs : List (Finset (List Char))) :
    ∀ init : Finset (List Char),
      (x ∈ rs.foldl (fun a r => a ∪ r) init) ↔ x ∈ init ∨ ∃ s ∈ rs, x ∈ s := by
  induction rs with
  | nil => intro init; simp
  | cons r rest ih =>
      intro init
      simp only [List.foldl_cons, ih, Finset.mem_union, List.mem_cons]
      constructor
      · rintro ((h | h) | ⟨s, hs, hx⟩)
        · exact Or.inl h
        · exact Or.inr ⟨r, Or.inl rfl, h⟩
        · exact Or.inr ⟨s, Or.inr hs, hx⟩
      · rintro (h | ⟨s, (rfl | hs), hx⟩)
        · exact Or.inl (Or.inl h)
        · exact Or.inl (Or.inr hx)
        · exact Or.inr ⟨s, hs, hx⟩

theorem splitOnChar_ne_nil (sep : Char) (s : List Char) :
    splitOnChar sep s ≠ [] := by
  cases s with
  | nil => simp [splitOnChar]
  | cons c cs =>
      by_cases hc : c = sep
      · simp [splitOnChar, hc]
      · cases h2 : splitOnChar sep cs <;> simp [splitOnChar, hc, h2]

theorem splitOnChar_cons_of_ne {sep c : Char} {cs : List Char} (hc : ¬ c = sep)
    {l : List Char} {ls : List (List Char)} (h : splitOnChar sep cs = l :: ls) :
    splitOnChar sep (c :: cs) = (c :: l) :: ls := by
  simp [splitOnChar, hc, h]

theorem splitOnChar_cons_self (sep : Char) (cs : List Char) :
    splitOnChar sep (sep :: cs) = [] :: splitOnChar sep cs := by
  simp [splitOnChar]

theorem joinWith_cons_cons (sep : Char) (p q : List Char)
    (ps : List (List Char)) :
    joinWith sep (p :: q :: ps) = p ++ sep :: joinWith sep (q :: ps) := rfl

theorem joinWith_splitOnChar (sep : Char) (s : List Char) :
    joinWith sep (splitOnChar sep s) = s := by
  induction s with
  | nil => rfl
  | cons c cs ih =>
      obtain ⟨l, ls, hs⟩ : ∃ l ls, splitOnChar sep cs = l :: ls := by
        cases h : splitOnChar sep cs with
        | nil => exact absurd h (splitOnChar_ne_nil sep cs)
        | cons l ls => exact ⟨l, ls, rfl⟩
      rw [hs] at ih
      by_cases hc : c = sep
      · subst hc
        rw [splitOnChar_cons_self, hs, joinWith_cons_cons, List.nil_append, ih]
      · rw [splitOnChar_cons_of_ne hc hs]
        cases ls with
        | nil =>
            simp only [joinWith] at ih ⊢
            rw [ih]
        | cons m ms =>
            rw [joinWith_cons_cons, List.cons_append]
            rw [joinWith_cons_cons] at ih
            rw [ih]

theorem joinWith_ne_nil {sep : Char} {q : List Char} {qs : List (List Char)}
    (hq : q ≠ []) : joinWith sep (q :: qs) ≠ [] := by
  cases qs with
  | nil => simpa [joinWith] using hq
  | cons r rs =>
      rw [joinWith_cons_cons]
      cases q with
      | nil => exact absurd rfl hq
      | cons a as => simp

theorem joinWith_getLast? (sep : Char) :
    ∀ parts : List (List Char), parts ≠ [] → (∀ q ∈ parts, q ≠ []) →
      ∃ p, p ∈ parts ∧ (joinWith sep parts).getLast? = p.getLast?
  | [], h, _ => absurd rfl h
  | [r], _, _ => ⟨r, by simp, rfl⟩
  | r :: r2 :: rs, _, hq => by
      obtain ⟨p, hp, hlast⟩ :=
        joinWith_getLast? sep (r2 :: rs) (by simp)
          (fun q hmem => hq q (List.mem_cons_of_mem r hmem))
      refine ⟨p, List.mem_cons_of_mem r hp, ?_⟩
      rw [joinWith_cons_cons, List.getLast?_append]
      have hjoin : joinWith sep (r2 :: rs) ≠ [] :=
        joinWith_ne_nil (hq r2 (by simp))
      obtain ⟨e, he⟩ : ∃ e, (joinWith sep (r2 :: rs)).getLast? = some e := by
        cases h : (joinWith sep (r2 :: rs)).getLast? with
        | none => exact absurd (List.getLast?_eq_none_iff.mp h) hjoin
        | some e => exact ⟨e, rfl⟩
      have hsj : (sep :: joinWith sep (r2 :: rs)).getLast? = some e := by
        have : sep :: joinWith sep (r2 :: rs) =
            [sep] ++ joinWith sep (r2 :: rs) := rfl
        rw [this, List.getLast?_append, he]
        rfl
      rw [hsj]
      rw [he] at hlast
      rw [← hlast]
      rfl

theorem mem_joinWith {sep : Char} {c : Char} :
    ∀ {parts : List (List Char)}, c ∈ joinWith sep parts →
      (∃ p ∈ parts, c ∈ p) ∨ c = sep
  | [], h => by simp [joinWith] at h
  | [p], h => Or.inl ⟨p, by simp, by simpa [joinWith] using h⟩
  | p :: q :: ps, h => by
      rw [joinWith_cons_cons, List.mem_append, List.mem_cons] at h
      rcases h with h | h | h
      · exact Or.inl ⟨p, by simp, h⟩
      · exact Or.inr h
      · rcases mem_joinWith h with ⟨r, hr, hc⟩ | hsep
        · exact Or.inl ⟨r, List.mem_cons_of_mem p hr, hc⟩
        · exact Or.inr hsep

theorem matchLabel_ne_nil {p : List Char} (h : matchLabel p = true) :
    p ≠ [] := by
  intro he
  subst he
  simp [matchLabel] at h

theorem matchLabel_head {c : Char} {cs : List Char}
    (h : matchLabel (c :: cs) = true) : labelChar c = true := by
  cases cs with
  | nil => simpa [matchLabel] using h
  | cons x xs =>
      simp only [matchLabel, Bool.and_eq_true] at h
      exact h.1.1.1

theorem matchLabel_last {p : List Char} (h : matchLabel p = true) :
    ∃ e, p.getLast? = some e ∧ labelChar e = true := by
  cases p with
  | nil => simp [matchLabel] at h
  | cons c cs =>
      cases cs with
      | nil => exact ⟨c, rfl, by simpa [matchLabel] using h⟩
      | cons x xs =>
          simp only [matchLabel, Bool.and_eq_true] at h
          refine ⟨(x :: xs).getLastD '-', ?_, h.2⟩
          rw [List.getLast?_cons_cons]
          simp [List.getLastD_eq_getLast?]
          cases hg : (x :: xs).getLast? with
          | none => exact absurd (List.getLast?_eq_none_iff.mp hg) (by simp)
          | some e => rfl

theorem matchLabel_mem {p : List Char} (h : matchLabel p = true) :
    ∀ c ∈ p, labelMidChar c = true := by
  cases p with
  | nil => simp
  | cons c cs =>
      cases cs with
      | nil =>
          intro d hd
          rw [List.mem_singleton] at hd
          subst hd
          simp only [labelMidChar, Bool.or_eq_true]
          exact Or.inl (by simpa [matchLabel] using h)
      | cons x xs =>
          simp only [matchLabel, Bool.and_eq_true] at h
          intro d hd
          rcases List.mem_cons.mp hd with rfl | hd2
          · simp [labelMidChar, h.1.1.1]
          · exact (List.all_eq_true.mp h.1.2) d hd2

theorem validPattern_ne_nil {s : List Char} (h : validPattern s = true) :
    s ≠ [] := by
  intro he
  subst he
  simp [validPattern, splitOnChar, matchLabel] at h

theorem validPattern_head {c : Char} {cs : List Char}
    (h : validPattern (c :: cs) = true) : labelChar c = true := by
  unfold validPattern at h
  by_cases hc : c = '.'
  · subst hc
    simp only [splitOnChar, if_pos rfl, List.all_cons, Bool.and_eq_true] at h
    simp [matchLabel] at h
  · obtain ⟨l, ls, hs⟩ : ∃ l ls, splitOnChar '.' cs = l :: ls := by
      cases h2 : splitOnChar '.' cs with
      | nil => exact absurd h2 (splitOnChar_ne_nil '.' cs)
      | cons l ls => exact ⟨l, ls, rfl⟩
    rw [splitOnChar_cons_of_ne hc hs, List.all_cons, Bool.and_eq_true] at h
    exact matchLabel_head h.1

theorem validPattern_last {s : List Char} (h : validPattern s = true) :
    ∃ e, s.getLast? = some e ∧ labelChar e = true := by
  have hall := List.all_eq_true.mp h
  obtain ⟨p, hp, hlast⟩ :=
    joinWith_getLast? '.' (splitOnChar '.' s) (splitOnChar_ne_nil '.' s)
      (fun q hq => matchLabel_ne_nil (hall q hq))
  rw [joinWith_splitOnChar] at hlast
  obtain ⟨e, he, hlab⟩ := matchLabel_last (hall p hp)
  exact ⟨e, hlast.trans he, hlab⟩

theorem validPattern_mem {s : List Char} (h : validPattern s = true) :
    ∀ c ∈ s, labelMidChar c = true ∨ c = '.' := by
  intro c hc
  have hall := List.all_eq_true.mp h
  rw [← joinWith_splitOnChar '.' s] at hc
  rcases mem_joinWith hc with ⟨p, hp, hcp⟩ | hsep
  · exact Or.inl (matchLabel_mem (hall p hp) c hcp)
  · exact Or.inr hsep

theorem labelChar_props {c : Char} (h : labelChar c = true) :
    pyWs c = false ∧ ¬ c = '.' ∧ ¬ c = '*' ∧ isUpperAscii c = false := by
  have hn : (97 ≤ c.toNat ∧ c.toNat ≤ 122) ∨ (48 ≤ c.toNat ∧ c.toNat ≤ 57) := by
    simpa [labelChar, Bool.or_eq_true, Bool.and_eq_true,
      decide_eq_true_eq] using h
  refine ⟨?_, ?_, ?_, ?_⟩
  · rw [Bool.eq_false_iff]
    intro hw
    have : c.toNat = 32 ∨ c.toNat = 9 ∨ c.toNat = 10 ∨ c.toNat = 13 ∨
        c.toNat = 11 ∨ c.toNat = 12 := by
      simpa [pyWs, Bool.or_eq_true, decide_eq_true_eq, or_assoc] using hw
    omega
  · intro he
    subst he
    revert hn
    decide
  · intro he
    subst he
    revert hn
    decide
  · simp only [isUpperAscii, Bool.and_eq_false_iff, decide_eq_false_iff_not]
    omega

theorem labelMidChar_not_upper {c : Char} (h : labelMidChar c = true) :
    isUpperAscii c = false := by
  rcases Bool.or_eq_true _ _ |>.mp h with hl | he
  · exact (labelChar_props hl).2.2.2
  · have : c = '-' := by simpa using he
    subst this
    decide

theorem dropWhile_eq_self_of_head {p : Char → Bool} {l : List Char}
    (h : ∀ a, l.head? = some a → p a = false) : l.dropWhile p = l := by
  cases l with
  | nil => rfl
  | cons a as => simp [List.dropWhile_cons, h a rfl]

theorem rstripWhile_eq_self {p : Char → Bool} {l : List Char}
    (h : ∀ a, l.getLast? = some a → p a = false) : rstripWhile p l = l := by
  unfold rstripWhile
  rw [dropWhile_eq_self_of_head, List.reverse_reverse]
  intro a ha
  rw [List.head?_reverse] at ha
  exact h a ha

theorem stripStarDot_of_head {c : Char} {cs : List Char} (hc : ¬ c = '*') :
    stripStarDot (c :: cs) = c :: cs := by
  unfold stripStarDot
  split
  · next heq => injection heq with h1 _; exact absurd h1 hc
  · rfl

theorem clean_subdomain_eq_some {r d h : List Char}
    (hc : clean_subdomain r d = some h) :
    h = stripDots (stripStarDot (pyStrip (pyLower r))) ∧
    valid_subdomain h d = true := by
  have hc' : (if valid_subdomain
      (stripDots (stripStarDot (pyStrip (pyLower r)))) d then
        some (stripDots (stripStarDot (pyStrip (pyLower r)))) else none) =
      some h := hc
  by_cases hv : valid_subdomain (stripDots (stripStarDot (pyStrip (pyLower r)))) d
  · rw [if_pos hv] at hc'
    injection hc' with hh
    exact ⟨hh.symm, hh ▸ hv⟩
  · rw [if_neg hv] at hc'
    cases hc'

theorem valid_subdomain_parts {s d : List Char}
    (h : valid_subdomain s d = true) :
    ('.' :: d).isSuffixOf s = true ∧ validPattern (pyLower s) = true := by
  simpa [valid_subdomain, Bool.and_eq_true] using h

theorem v2Char_pyLowerChar {c : Char} (h : v2Char c = true) :
    v2Char (pyLowerChar c) = true := by
  unfold pyLowerChar
  split
  · next hu =>
      simp only [isUpperAscii, Bool.and_eq_true, decide_eq_true_eq] at hu
      simp only [v2Char, Bool.or_eq_true, Bool.and_eq_true, decide_eq_true_eq]
      rw [toNat_ofNat_valid (by omega)]
      omega
  · exact h

theorem pyLowerChar_dot : pyLowerChar '.' = '.' := by decide

theorem removeOccAux_sublist (p : Char) (ps : List Char) :
    ∀ (skip : Nat) (l : List Char), (removeOccAux p ps skip l).Sublist l := by
  intro skip l
  induction l generalizing skip with
  | nil => simp [removeOccAux]
  | cons c cs ih =>
      cases skip with
      | succ n => exact (ih n).cons c
      | zero =>
          simp only [removeOccAux]
          split
          · exact (ih ps.length).cons c
          · exact (ih 0).cons₂ c

theorem pyReplaceDel_sublist (pat s : List Char) :
    (pyReplaceDel pat s).Sublist s := by
  cases pat with
  | nil => exact List.Sublist.refl s
  | cons p ps => exact removeOccAux_sublist p ps 0 s

theorem head?_dropWhile_false {p : Char → Bool} :
    ∀ {l : List Char} {a : Char}, (l.dropWhile p).head? = some a →
      p a = false := by
  intro l
  induction l with
  | nil => intro a h; exact Option.noConfusion h
  | cons c cs ih =>
      intro a h
      by_cases hc : p c = true
      · rw [List.dropWhile_cons, if_pos hc] at h
        exact ih h
      · rw [List.dropWhile_cons, if_neg hc] at h
        injection h with h
        subst h
        exact Bool.not_eq_true _ ▸ hc

theorem rstripWhile_getLast?_false {p : Char → Bool} {s : List Char}
    {a : Char} (h : (rstripWhile p s).getLast? = some a) : p a = false := by
  unfold rstripWhile at h
  rw [List.getLast?_reverse] at h
  exact head?_dropWhile_false h

/-! ## Claim theorems -/

/-- C1 counterexample: scansubv2.py's `valid_subdomain` accepts
`a..example.com` (and inserts it into the hostname set) although its
empty middle label violates the label grammar
`[a-z0-9]([a-z0-9-]{0,61}[a-z0-9])?`. -/
theorem C1_counterexample :
    normalize_v2 "a..example.com".data "example.com".data =
      some "a..example.com".data ∧
    validPattern "a..example.com".data = false := by
  constructor
  · decide
  · decide

/-- C1 amended: subsonic.py's `clean_subdomain` returns a hostname only
if it ends with `"." ++ domain`, is strictly longer than the domain, and
every dot-separated label matches `[a-z0-9]([a-z0-9-]{0,61}[a-z0-9])?`;
scansubv2.py's `valid_subdomain`, however, guarantees only the suffix, the
length bound, and that every character of the (lower-cased) result lies in
`[a-zA-Z0-9.-]` — it does not enforce the label grammar. -/
theorem C1_normalize_guarantees :
    (∀ r d h : List Char, clean_subdomain r d = some h →
      ('.' :: d).isSuffixOf h = true ∧ d.length < h.length ∧
        validPattern h = true) ∧
    (∀ r d h : List Char, pyLower d = d → normalize_v2 r d = some h →
      ('.' :: d).isSuffixOf h = true ∧ d.length < h.length ∧
        h.all v2Char = true ∧ noUpper h = true) := by
  constructor
  · intro r d h hc
    obtain ⟨heq, hv⟩ := clean_subdomain_eq_some hc
    have hnu : noUpper h = true := heq ▸ noUpper_cleanChain r
    obtain ⟨hsuf, hpat⟩ := valid_subdomain_parts hv
    rw [pyLower_eq_self hnu] at hpat
    refine ⟨hsuf, ?_, hpat⟩
    have hsux : ('.' :: d) <:+ h := List.isSuffixOf_iff_suffix.mp hsuf
    have := hsux.length_le
    simp only [List.length_cons] at this
    omega
  · intro r d h hd hv2
    have hv2' : (if valid_subdomain_v2 r d then some (pyLower r) else none) =
        some h := hv2
    by_cases hval : valid_subdomain_v2 r d
    · rw [if_pos hval] at hv2'
      injection hv2' with hh
      obtain ⟨hsuf, hlen, _, hall⟩ : ('.' :: d).isSuffixOf r = true ∧
          d.length < r.length ∧ r.isEmpty = false ∧ r.all v2Char = true := by
        simpa [valid_subdomain_v2, Bool.and_eq_true, and_assoc] using hval
      subst hh
      refine ⟨?_, ?_, ?_, noUpper_pyLower r⟩
      · have hsux : ('.' :: d) <:+ r := List.isSuffixOf_iff_suffix.mp hsuf
        obtain ⟨t, ht⟩ := hsux
        have : pyLower r = pyLower t ++ '.' :: d := by
          rw [← ht, pyLower, List.map_append]
          simp only [pyLower, List.map_cons, pyLowerChar_dot]
          rw [show List.map pyLowerChar d = pyLower d from rfl, hd]
        rw [this]
        exact List.isSuffixOf_iff_suffix.mpr ⟨pyLower t, rfl⟩
      · simpa [pyLower, List.length_map] using hlen
      · simp only [pyLower, List.all_map, List.all_eq_true]
        intro c hc
        exact v2Char_pyLowerChar (List.all_eq_true.mp hall c hc)
    · rw [if_neg hval] at hv2'
      cases hv2'

/-- C1 witness: the amended guarantees at the spec's own example — the
wildcard candidate `*.Foo.example.com` normalizes to `foo.example.com`,
which carries all three guarantees. -/
theorem C1_witness :
    clean_subdomain "*.Foo.example.com".data "example.com".data =
      some "foo.example.com".data ∧
    ('.' :: "example.com".data).isSuffixOf "foo.example.com".data = true ∧
    validPattern "foo.example.com".data = true := by
  refine ⟨by decide, ?_, ?_⟩
  · exact (C1_normalize_guarantees.1 "*.Foo.example.com".data
      "example.com".data "foo.example.com".data (by decide)).1
  · exact (C1_normalize_guarantees.1 "*.Foo.example.com".data
      "example.com".data "foo.example.com".data (by decide)).2.2

/-- C9: normalization is idempotent — every hostname accepted by
`clean_subdomain` is a fixpoint of `clean_subdomain`. -/
theorem C9_clean_idempotent (r d h : List Char)
    (hc : clean_subdomain r d = some h) : clean_subdomain h d = some h := by
  obtain ⟨heq, hv⟩ := clean_subdomain_eq_some hc
  have hnu : noUpper h = true := heq ▸ noUpper_cleanChain r
  obtain ⟨hsuf, hpat0⟩ := valid_subdomain_parts hv
  have hfix : pyLower h = h := pyLower_eq_self hnu
  have hpat : validPattern h = true := by rw [hfix] at hpat0; exact hpat0
  have hne : h ≠ [] := validPattern_ne_nil hpat
  obtain ⟨c, cs, hcons⟩ : ∃ c cs, h = c :: cs := by
    cases h with
    | nil => exact absurd rfl hne
    | cons c cs => exact ⟨c, cs, rfl⟩
  have hheadlab : labelChar c = true := validPattern_head (hcons ▸ hpat)
  obtain ⟨e, hlaste, hlablast⟩ := validPattern_last hpat
  have hchead := labelChar_props hheadlab
  have hclast := labelChar_props hlablast
  have hhead? : h.head? = some c := by rw [hcons]; rfl
  have hstrip : pyStrip h = h := by
    have h1 : h.dropWhile pyWs = h := dropWhile_eq_self_of_head (by
      intro a ha
      rw [hhead?] at ha
      injection ha with ha
      subst ha
      exact hchead.1)
    have h2 : rstripWhile pyWs h = h := rstripWhile_eq_self (by
      intro a ha
      rw [hlaste] at ha
      injection ha with ha
      subst ha
      exact hclast.1)
    unfold pyStrip
    rw [h1, h2]
  have hstar : stripStarDot h = h := by
    rw [hcons]
    exact stripStarDot_of_head hchead.2.2.1
  have hdots : stripDots h = h := by
    have h1 : h.dropWhile (fun x => x = '.') = h := dropWhile_eq_self_of_head (by
      intro a ha
      rw [hhead?] at ha
      injection ha with ha
      subst ha
      exact decide_eq_false hchead.2.1)
    have h2 : rstripWhile (fun x => x = '.') h = h := rstripWhile_eq_self (by
      intro a ha
      rw [hlaste] at ha
      injection ha with ha
      subst ha
      exact decide_eq_false hclast.2.1)
    unfold stripDots
    rw [h1, h2]
  have hchain : stripDots (stripStarDot (pyStrip (pyLower h))) = h := by
    rw [hfix, hstrip, hstar, hdots]
  show (if valid_subdomain (stripDots (stripStarDot (pyStrip (pyLower h)))) d
      then some (stripDots (stripStarDot (pyStrip (pyLower h)))) else none) =
    some h
  rw [hchain, if_pos hv]

/-- C9 witness: idempotence applied to a concretely accepted hostname. -/
theorem C9_witness :
    clean_subdomain "foo.example.com".data "example.com".data =
      some "foo.example.com".data :=
  C9_clean_idempotent "*.Foo.example.com".data "example.com".data
    "foo.example.com".data (by decide)

/-- C10: a parent domain containing an ASCII uppercase letter makes
`clean_subdomain` reject every candidate, because the candidate is
lower-cased before the `endswith` comparison while the domain is used
verbatim. -/
theorem C10_uppercase_domain_rejects (r d : List Char)
    (hd : ∃ c ∈ d, isUpperAscii c = true) : clean_subdomain r d = none := by
  cases hc : clean_subdomain r d with
  | none => rfl
  | some h =>
      exfalso
      obtain ⟨heq, hv⟩ := clean_subdomain_eq_some hc
      have hnu : noUpper h = true := heq ▸ noUpper_cleanChain r
      obtain ⟨hsuf, _⟩ := valid_subdomain_parts hv
      obtain ⟨c0, hc0d, hc0u⟩ := hd
      have hsux : ('.' :: d) <:+ h := List.isSuffixOf_iff_suffix.mp hsuf
      have hc0h : c0 ∈ h := hsux.subset (List.mem_cons_of_mem '.' hc0d)
      have := List.all_eq_true.mp hnu c0 hc0h
      rw [Bool.not_eq_true'] at this
      rw [hc0u] at this
      cases this

/-- C10 witness: every candidate is rejected against the mixed-case
domain `Example.com`, even one that would match it verbatim. -/
theorem C10_witness :
    clean_subdomain "sub.Example.com".data "Example.com".data = none :=
  C10_uppercase_domain_rejects "sub.Example.com".data "Example.com".data
    ⟨'E', by decide, by decide⟩

/-- C2: `probe_subdomain` follows the specified state machine — DNS
failure yields the `Unresolvable` outcome (`None`) and issues no HTTP
request; when DNS succeeds, HTTPS is attempted first and a success yields
`Live(https, url)`; otherwise HTTP is attempted the same way yielding
`Live(http, url)` on success; otherwise the outcome is `DnsOnly`.  The
four possible return values are pairwise distinct, so for any hostname
exactly one classification is produced. -/
theorem C2_probe_state_machine (w : ProbeWorld) (sub : List Char) :
    ((probe_subdomain w sub).1 = none ↔ w.dnsOk = false) ∧
    (w.dnsOk = false → (probe_subdomain w sub).2 = []) ∧
    (w.dnsOk = true → headOk w.httpsResp = true →
      (probe_subdomain w sub).1 = some ("https://".data ++ sub) ∧
      (probe_subdomain w sub).2 = ["https://".data]) ∧
    (w.dnsOk = true → headOk w.httpsResp = false → headOk w.httpResp = true →
      (probe_subdomain w sub).1 = some ("http://".data ++ sub) ∧
      (probe_subdomain w sub).2 = ["https://".data, "http://".data]) ∧
    (w.dnsOk = true → headOk w.httpsResp = false → headOk w.httpResp = false →
      (probe_subdomain w sub).1 = some ("dns-only://".data ++ sub)) ∧
    List.Pairwise (· ≠ ·)
      [(none : Option (List Char)), some ("https://".data ++ sub),
        some ("http://".data ++ sub), some ("dns-only://".data ++ sub)] := by
  obtain ⟨d, hs, ht⟩ := w
  have hne1 : "https://".data ++ sub ≠ "http://".data ++ sub :=
    append_length_ne (by decide)
  have hne2 : "https://".data ++ sub ≠ "dns-only://".data ++ sub :=
    append_length_ne (by decide)
  have hne3 : "http://".data ++ sub ≠ "dns-only://".data ++ sub :=
    append_length_ne (by decide)
  refine ⟨?_, ?_, ?_, ?_, ?_, ?_⟩
  · cases d <;> by_cases h1 : headOk hs <;> by_cases h2 : headOk ht <;>
      simp [probe_subdomain, h1, h2]
  · intro hd; subst hd; simp [probe_subdomain]
  · intro hd h1; subst hd; simp [probe_subdomain, h1]
  · intro hd h1 h2; subst hd; simp [probe_subdomain, h1, h2]
  · intro hd h1 h2; subst hd; simp [probe_subdomain, h1, h2]
  · simp [hne1, hne2, hne3]

/-- C2 witness: a concrete world with resolving DNS and a 200 HTTPS
response yields the `Live(https, url)` outcome. -/
theorem C2_witness :
    (probe_subdomain ⟨true, some 200, none⟩ "x".data).1 =
      some ("https://".data ++ "x".data) :=
  ((C2_probe_state_machine ⟨true, some 200, none⟩ "x".data).2.2.1 rfl rfl).1

/-- C3 counterexample: subsonic.py's `probe_subdomain` accepts any status
below 400 — a 100 response is classified `Live(https, url)` although 100
is outside `[200, 400)`. -/
theorem C3_counterexample :
    (probe_subdomain ⟨true, some 100, none⟩ "x".data).1 =
      some ("https://".data ++ "x".data) ∧
    classifyProbe (probe_subdomain ⟨true, some 100, none⟩ "x".data).1 =
      .live ∧
    ¬ (200 ≤ 100) := by
  refine ⟨by decide, by decide, by omega⟩

/-- C3 amended: subsonic.py's `probe_subdomain` classifies a scheme as
live exactly when that scheme's attempt returned a response with
`status_code < 400` (also 1xx statuses); scansubv2.py's `probe_url` uses
exactly the range `[200, 400)`.  In both, a network exception or a status
outside the accepted range is a non-match for that scheme, never live. -/
theorem C3_live_status_ranges :
    (∀ (w : ProbeWorld) (sub : List Char),
      ((probe_subdomain w sub).1 = some ("https://".data ++ sub) ↔
        w.dnsOk = true ∧ ∃ c, w.httpsResp = some c ∧ c < 400) ∧
      ((probe_subdomain w sub).1 = some ("http://".data ++ sub) ↔
        w.dnsOk = true ∧ headOk w.httpsResp = false ∧
          ∃ c, w.httpResp = some c ∧ c < 400)) ∧
    (∀ (v : UrlWorld) (sub : List Char),
      (probe_url v sub = some ("https://".data ++ sub) ↔
        ∃ c, v.httpsResp = some c ∧ 200 ≤ c ∧ c < 400) ∧
      (probe_url v sub = some ("http://".data ++ sub) ↔
        getOk v.httpsResp = false ∧
          ∃ c, v.httpResp = some c ∧ 200 ≤ c ∧ c < 400)) := by
  constructor
  · intro w sub
    obtain ⟨d, hs, ht⟩ := w
    have hne1 : "https://".data ++ sub ≠ "http://".data ++ sub :=
      append_length_ne (by decide)
    have hne2 : "https://".data ++ sub ≠ "dns-only://".data ++ sub :=
      append_length_ne (by decide)
    have hne3 : "http://".data ++ sub ≠ "dns-only://".data ++ sub :=
      append_length_ne (by decide)
    simp only [← headOk_iff]
    cases d <;> by_cases h1 : headOk hs <;> by_cases h2 : headOk ht <;>
      simp [probe_subdomain, h1, h2, hne1, hne2, hne3, Ne.symm hne1,
        Ne.symm hne2, Ne.symm hne3]
  · intro v sub
    obtain ⟨hs, ht⟩ := v
    have hne1 : "https://".data ++ sub ≠ "http://".data ++ sub :=
      append_length_ne (by decide)
    simp only [← getOk_iff]
    by_cases h1 : getOk hs <;> by_cases h2 : getOk ht <;>
      simp [probe_url, h1, h2, hne1, Ne.symm hne1]

/-- C3 witness: the amended characterization at a concrete world — a 307
HTTPS response is live for subsonic.py, and a 500 HTTPS response with a
204 HTTP response makes scansubv2.py live over http. -/
theorem C3_witness :
    (probe_subdomain ⟨true, some 307, none⟩ "x".data).1 =
      some ("https://".data ++ "x".data) ∧
    probe_url ⟨some 500, some 204⟩ "x".data =
      some ("http://".data ++ "x".data) := by
  constructor
  · exact ((C3_live_status_ranges.1 ⟨true, some 307, none⟩ "x".data).1).mpr
      ⟨rfl, 307, rfl, by omega⟩
  · exact ((C3_live_status_ranges.2 ⟨some 500, some 204⟩ "x".data).2).mpr
      ⟨by decide, 204, rfl, by omega, by omega⟩

/-- C4: the source adapters fail soft — a network failure makes
`fetch_url` return `""`, which makes `get_subdomains_from_crtsh` (its
JSON parser raising on the empty string) and
`get_subdomains_from_rapiddns` return the empty set instead of raising;
and a failed adapter's empty set does not change the merged result of
`collect`, which is total over its inputs. -/
theorem C4_adapters_fail_soft
    (parseJson : List Char → Option (List CrtItem))
    (find : List Char → List (List Char)) (domain : List Char)
    (hp : parseJson [] = none) (l1 l2 : List (Finset (List Char))) :
    get_subdomains_from_crtsh parseJson none domain = ∅ ∧
    (∀ text, parseJson text = none →
      get_subdomains_from_crtsh parseJson (some text) domain = ∅) ∧
    get_subdomains_from_rapiddns find none domain = ∅ ∧
    fetch_url none = [] ∧
    collect (l1 ++ ∅ :: l2) = collect (l1 ++ l2) := by
  refine ⟨?_, ?_, rfl, rfl, ?_⟩
  · simp [get_subdomains_from_crtsh, fetch_url, hp]
  · intro text hpt
    simp [get_subdomains_from_crtsh, fetch_url, hpt]
  · simp [collect, List.foldl_append, List.foldl_cons, Finset.union_empty]

/-- C4 witness: concrete failing adapters contribute nothing and do not
disturb the merge. -/
theorem C4_witness :
    get_subdomains_from_crtsh (fun _ => none) none [] = ∅ ∧
    collect ([({"a".data} : Finset (List Char))] ++ ∅ :: []) =
      collect ([({"a".data} : Finset (List Char))] ++ []) :=
  ⟨(C4_adapters_fail_soft (fun _ => none) (fun _ => []) [] rfl [] []).1,
    (C4_adapters_fail_soft (fun _ => none) (fun _ => []) [] rfl
      [({"a".data} : Finset (List Char))] []).2.2.2.2⟩

/-- C5: `dns_resolve` walks the record types A, CNAME, AAAA, MX in that
order, returns `True` on the first type whose query yields a nonempty
answer (having issued exactly that many queries), returns `False` after
exhausting all four types, and a raised query is indistinguishable from
an empty answer — it is never propagated. -/
theorem C5_dns_resolve_order (w : DnsWorld) :
    ((dns_resolve w).1 = true ↔ DnsAnswer.records ∈ w.queries) ∧
    (w.a = .records → dns_resolve w = (true, 1)) ∧
    (w.a ≠ .records → w.cname = .records → dns_resolve w = (true, 2)) ∧
    (w.a ≠ .records → w.cname ≠ .records → w.aaaa = .records →
      dns_resolve w = (true, 3)) ∧
    (w.a ≠ .records → w.cname ≠ .records → w.aaaa ≠ .records →
      w.mx = .records → dns_resolve w = (true, 4)) ∧
    (w.a ≠ .records → w.cname ≠ .records → w.aaaa ≠ .records →
      w.mx ≠ .records → dns_resolve w = (false, 4)) ∧
    dns_resolve w.scrubErr = dns_resolve w := by
  obtain ⟨a, c, aa, m⟩ := w
  cases a <;> cases c <;> cases aa <;> cases m <;>
    exact ⟨by decide, by decide, by decide, by decide, by decide, by decide,
      by decide⟩

/-- C5 witness: a world whose first nonempty answer is the third record
type (AAAA), the first two having an empty answer and an error. -/
theorem C5_witness : dns_resolve ⟨.empty, .err, .records, .err⟩ = (true, 3) :=
  (C5_dns_resolve_order ⟨.empty, .err, .records, .err⟩).2.2.2.1
    (by decide) (by decide) rfl

theorem wayback_checked_https (sub : List Char) :
    wayback_checked (some ("https://".data ++ sub)) = true := rfl

theorem wayback_checked_http (sub : List Char) :
    wayback_checked (some ("http://".data ++ sub)) = true := rfl

theorem wayback_checked_dnsonly (sub : List Char) :
    wayback_checked (some ("dns-only://".data ++ sub)) = true := rfl

theorem classifyProbe_https (sub : List Char) :
    classifyProbe (some ("https://".data ++ sub)) = .live := rfl

theorem classifyProbe_http (sub : List Char) :
    classifyProbe (some ("http://".data ++ sub)) = .live := rfl

theorem classifyProbe_dnsonly (sub : List Char) :
    classifyProbe (some ("dns-only://".data ++ sub)) = .dnsOnly := rfl

/-- C6 counterexample: a hostname whose DNS resolves but whose two HTTP
attempts both fail is classified `DnsOnly`, yet `scan_domain`'s `if res:`
gate still runs the Wayback check for it (and a recent snapshot is then
attached) — enrichment is not restricted to `Live` results. -/
theorem C6_counterexample :
    classifyProbe (probe_subdomain ⟨true, none, none⟩ "x".data).1 =
      .dnsOnly ∧
    wayback_checked (probe_subdomain ⟨true, none, none⟩ "x".data).1 = true ∧
    check_wayback (some (some ⟨some "20250101000000".data, some "u".data⟩))
      2025 2 = some "u".data := by
  refine ⟨by decide, by decide, by decide⟩

/-- C6 amended: the Wayback check is attempted for every probe result
that is not `Unresolvable` — `DnsOnly` results included, not only `Live`
ones; a snapshot URL is returned only when the snapshot's year satisfies
`snapshotYear ≥ currentYear - recencyYears` (2 at the call site), and any
fetch or parse failure yields absence, never an error. -/
theorem C6_enrichment_window (pw : ProbeWorld) (sub : List Char)
    (w : Option (Option Snapshot)) (currentYear years : Nat)
    (u : List Char) :
    (wayback_checked (probe_subdomain pw sub).1 = true ↔
      classifyProbe (probe_subdomain pw sub).1 ≠ .unresolvable) ∧
    (check_wayback w currentYear years = some u →
      ∃ snap ts y, w = some (some snap) ∧ snap.timestamp = some ts ∧
        parseNat (ts.take 4) = some y ∧
        (y : Int) ≥ (currentYear : Int) - (years : Int) ∧
        snap.url = some u) ∧
    check_wayback none currentYear years = none := by
  refine ⟨?_, ?_, rfl⟩
  · obtain ⟨d, hs, ht⟩ := pw
    cases d <;> by_cases h1 : headOk hs <;> by_cases h2 : headOk ht <;>
      simp [probe_subdomain, h1, h2, wayback_checked_https,
        wayback_checked_http, wayback_checked_dnsonly, classifyProbe_https,
        classifyProbe_http, classifyProbe_dnsonly, wayback_checked,
        classifyProbe]
  · intro hcw
    rcases w with _ | w2
    · cases hcw
    rcases w2 with _ | snap
    · cases hcw
    rcases hts : snap.timestamp with _ | ts
    · simp only [check_wayback, hts] at hcw
      exact Option.noConfusion hcw
    by_cases he : ts.isEmpty
    · simp only [check_wayback, hts, if_pos he] at hcw
      exact Option.noConfusion hcw
    rcases hp : parseNat (ts.take 4) with _ | y
    · simp only [check_wayback, hts, if_neg he, hp] at hcw
      exact Option.noConfusion hcw
    by_cases hy : (y : Int) ≥ (currentYear : Int) - (years : Int)
    · refine ⟨snap, ts, y, rfl, hts, hp, hy, ?_⟩
      simpa only [check_wayback, hts, if_neg he, hp, if_pos hy] using hcw
    · simp only [check_wayback, hts, if_neg he, hp, if_neg hy] at hcw
      exact Option.noConfusion hcw

/-- C6 witness: the amended characterization at a concrete world — a live
probe result passes the enrichment gate. -/
theorem C6_witness :
    classifyProbe (probe_subdomain ⟨true, some 200, none⟩ "x".data).1 ≠
      .unresolvable :=
  (C6_enrichment_window ⟨true, some 200, none⟩ "x".data none 2025 2 []).1.mp
    (by decide)

/-- C7: aggregation is order-independent and idempotent — merging the
same per-adapter output sets with `collect` yields the same `Hostname`
set for every completion order (any permutation of the outputs), and
merging the outputs twice over yields the same set. -/
theorem C7_collect_order_independent
    {rs rs' : List (Finset (List Char))} (h : rs.Perm rs') :
    collect rs = collect rs' ∧ collect (rs ++ rs) = collect rs := by
  constructor
  · ext x
    simp only [collect, mem_foldl_union, Finset.not_mem_empty, false_or]
    exact ⟨fun ⟨s, hs, hx⟩ => ⟨s, h.mem_iff.1 hs, hx⟩,
      fun ⟨s, hs, hx⟩ => ⟨s, h.mem_iff.2 hs, hx⟩⟩
  · ext x
    simp only [collect, mem_foldl_union, Finset.not_mem_empty, false_or,
      List.mem_append]
    constructor
    · rintro ⟨s, (hs | hs), hx⟩ <;> exact ⟨s, hs, hx⟩
    · rintro ⟨s, hs, hx⟩; exact ⟨s, Or.inl hs, hx⟩

/-- C7 witness: a concrete pair of adapter outputs merged in both
completion orders. -/
theorem C7_witness :
    collect [({"a".data} : Finset (List Char)), ∅] =
      collect [∅, ({"a".data} : Finset (List Char))] :=
  (C7_collect_order_independent (by decide)).1

/-- C8 counterexample: subsonic.py's per-line normalization neither
lower-cases nor strips trailing slashes, and the `str.replace`-based
variants delete `www.` anywhere in the string, not only as a leading
prefix; scansubv2.py also keeps trailing slashes. -/
theorem C8_counterexample :
    normalize_subsonic "Example.com/".data = "Example.com/".data ∧
    normalize_scansub "a.www.b.com".data = "a.b.com".data ∧
    normalize_scansub "example.com/".data = "example.com/".data := by
  refine ⟨by decide, by decide, by decide⟩

/-- C8 amended: blank input lines are ignored; script/subsonic.py
lower-cases, deletes every occurrence (not only a leading one) of
`http://`, `https://` and `www.`, and strips trailing slashes;
scansubv2.py does the same but keeps trailing slashes; subsonic.py only
removes a single leading `http://`/`https://` (optionally followed by
`www.`) or `www.` prefix, without lower-casing and without stripping
trailing slashes. -/
theorem C8_domain_normalization (d l : List Char) (ls : List (List Char)) :
    (normalize_subsonic d) <:+ (pyStrip d) ∧
    noUpper (normalize_scansub d) = true ∧
    noUpper (normalize_script d) = true ∧
    (∀ a, (normalize_script d).getLast? = some a → ¬ a = '/') ∧
    (pyStrip l = [] → readDomains_subsonic (l :: ls) = readDomains_subsonic ls) := by
  have hbase : noUpper (normalize_scansub d) = true := by
    unfold normalize_scansub
    exact noUpper_sublist (pyReplaceDel_sublist _ _)
      (noUpper_sublist (pyReplaceDel_sublist _ _)
        (noUpper_sublist (pyReplaceDel_sublist _ _)
          (noUpper_pyLower (pyStrip d))))
  refine ⟨?_, hbase, ?_, ?_, ?_⟩
  · unfold normalize_subsonic stripSchemeWww
    split_ifs <;> first
      | exact List.drop_suffix _ _
      | exact List.suffix_refl _
  · exact noUpper_sublist (rstripWhile_sublist _ _) hbase
  · intro a ha
    have := rstripWhile_getLast?_false ha
    simpa using this
  · intro hl
    unfold readDomains_subsonic
    rw [List.filter_cons]
    simp [hl]

/-- C8 witness: a blank line is dropped from the domain list. -/
theorem C8_witness :
    readDomains_subsonic (" ".data :: ["example.com".data]) =
      readDomains_subsonic ["example.com".data] :=
  (C8_domain_normalization [] " ".data ["example.com".data]).2.2.2.2
    (by decide)

end ScanDomain
